import Mathlib

/-!
Shallow embedding of the activity logging watch face of this repository
(src/watch-faces/sensor/activity_logging_face.c), together with proofs
about its sampling, rollover, statistics and view-selection logic.

The companion header activity_logging_face.h (declaring the state struct
and the day-ring capacity ACTIVITY_LOGGING_NUM_DAYS) is not part of the
sources provided under src/; where its contents are needed they are
modelled from the specification (spec.md section 3): field widths u16/u32,
and the capacity N left as an explicit parameter, since the spec fixes it
only as a compile-time constant.

Machine integers are modelled as Nat with explicit reductions modulo
2^16 / 2^32 at the operations where C overflow can occur.
-/

namespace ActivityLogging

/-- Modulus of the C type uint16_t. -/
def U16 : Nat := 65536

/-- Modulus of the C type uint32_t. -/
def U32 : Nat := 4294967296

/-- Top-level display mode of the face (C enum values MODE_DAY, MODE_HISTOGRAM). -/
inductive Mode where
  | day
  | histogram
  deriving DecidableEq, Repr

/-- Histogram timeframe (C enum values ACTIVITY_LOGGING_TIMEFRAME_12H, _12D). -/
inductive Timeframe where
  | twelveHours
  | twelveDays
  deriving DecidableEq, Repr

/-- Movement events dispatched to the face loop; constructors named after the
C EVENT_* values handled in activity_logging_face.c, with one catch-all for
every other event type (the C default branches). -/
inductive EventType where
  | light_button_down
  | light_button_up
  | light_long_press
  | alarm_button_down
  | activate
  | tick
  | low_energy_update
  | timeout
  | background_task
  | other
  deriving DecidableEq, Repr

/-- Modelled from the spec: the state struct activity_logging_state_t is declared
in activity_logging_face.h, which is not under src/; its fields and widths are
taken from spec.md section 3 (active_minutes_today u16, previous_minute_was_active
bool, hourly_data u16 x 24, activity_log u16 x N, data_points u32, display_index u8,
plus the UI selector and emoticon-timing fields used by the C file). Arrays are
modelled as functions from the index. -/
structure activity_logging_state_t where
  active_minutes_today : Nat
  previous_minute_was_active : Bool
  hourly_data : Nat → Nat
  activity_log : Nat → Nat
  data_points : Nat
  display_index : Nat
  mode : Mode
  histogram_view : Nat
  timeframe_mode : Timeframe
  show_emoticon : Bool
  emoticon_tick_count : Nat

/-- Zero-initialized state, as produced by the memset in activity_logging_face_setup
(enum value 0 is MODE_DAY, HISTOGRAM_VIEW_CHART and TIMEFRAME_12H). -/
def zero_state : activity_logging_state_t where
  active_minutes_today := 0
  previous_minute_was_active := false
  hourly_data := fun _ => 0
  activity_log := fun _ => 0
  data_points := 0
  display_index := 0
  mode := Mode.day
  histogram_view := 0
  timeframe_mode := Timeframe.twelveHours
  show_emoticon := false
  emoticon_tick_count := 0

/-- State mutation of activity_logging_face_advise (lines 535-566 of the C file):
at minute 0 the current hour slot is zeroed; then, if motion is present
(HAL_GPIO_A4_read() low, i.e. motion_absent = false), the minute is credited to
both counters when previous_minute_was_active is already set, and otherwise only
sets the latch; if motion is absent the latch is cleared. The uint16_t increments
are taken modulo 2^16. -/
def activity_logging_face_advise (hour minute : Nat) (motion_absent : Bool)
    (s : activity_logging_state_t) : activity_logging_state_t :=
  let s1 := if minute = 0 then
    { s with hourly_data := Function.update s.hourly_data hour 0 } else s
  if motion_absent = false then
    if s1.previous_minute_was_active then
      { s1 with
        active_minutes_today := (s1.active_minutes_today + 1) % U16,
        hourly_data := Function.update s1.hourly_data hour ((s1.hourly_data hour + 1) % U16) }
    else
      { s1 with previous_minute_was_active := true }
  else
    { s1 with previous_minute_was_active := false }

/-- Advisory flag returned by activity_logging_face_advise: a background task is
requested exactly at midnight (hour 0, minute 0). -/
def advise_wants_background_task (hour minute : Nat) : Bool :=
  hour == 0 && minute == 0

/-- EVENT_BACKGROUND_TASK branch of activity_logging_face_loop (lines 515-521):
writes the day accumulator into the ring at position data_points mod N,
increments data_points (uint32_t, modulo 2^32) and resets the accumulator.
N is the ring capacity ACTIVITY_LOGGING_NUM_DAYS from the missing header. -/
def background_task_commit (N : Nat) (s : activity_logging_state_t) :
    activity_logging_state_t :=
  { s with
    activity_log := Function.update s.activity_log (s.data_points % N) s.active_minutes_today,
    data_points := (s.data_points + 1) % U32,
    active_minutes_today := 0 }

/-- State mutation of _activity_logging_handle_day_events (lines 371-427).
The page-rendering helpers called there only read the state and draw, so they
are dropped from this state-level model; the EVENT_TICK second==0 test guards
only such a draw call and is likewise render-only. -/
def activity_logging_handle_day_events (N : Nat) (e : EventType)
    (s : activity_logging_state_t) : activity_logging_state_t :=
  match e with
  | EventType.light_button_up =>
      if 0 < s.display_index then { s with display_index := s.display_index - 1 } else s
  | EventType.light_long_press =>
      { s with mode := Mode.histogram, display_index := 0 }
  | EventType.alarm_button_down =>
      { s with display_index := (s.display_index + 1) % N }
  | EventType.tick =>
      if s.show_emoticon then
        let s2 := { s with emoticon_tick_count := s.emoticon_tick_count + 1 }
        if 1 < s2.emoticon_tick_count then { s2 with show_emoticon := false } else s2
      else s
  | EventType.timeout =>
      { s with display_index := 0 }
  | _ => s

/-- State mutation of _activity_logging_handle_histogram_events (lines 429-476);
rendering calls are dropped as in the day handler. -/
def activity_logging_handle_histogram_events (e : EventType)
    (s : activity_logging_state_t) : activity_logging_state_t :=
  match e with
  | EventType.light_button_up =>
      { s with histogram_view := (s.histogram_view + 1) % 4 }
  | EventType.light_long_press =>
      { s with mode := Mode.day }
  | EventType.alarm_button_down =>
      { s with timeframe_mode :=
          if s.timeframe_mode = Timeframe.twelveHours
          then Timeframe.twelveDays else Timeframe.twelveHours }
  | EventType.timeout =>
      { s with display_index := 0 }
  | _ => s

/-- State mutation of activity_logging_face_loop (lines 498-529): dispatch to the
mode handler, then handle EVENT_BACKGROUND_TASK (all other branches of the second
switch only delegate to the default movement handler, which does not touch this
state). -/
def activity_logging_face_loop (N : Nat) (e : EventType)
    (s : activity_logging_state_t) : activity_logging_state_t :=
  let s1 := match s.mode with
    | Mode.day => activity_logging_handle_day_events N e s
    | Mode.histogram => activity_logging_handle_histogram_events e s
  match e with
  | EventType.background_task => background_task_commit N s1
  | _ => s1

/-- State mutation of activity_logging_face_activate (lines 491-496). -/
def activity_logging_face_activate (s : activity_logging_state_t) :
    activity_logging_state_t :=
  { s with display_index := 0, show_emoticon := true, emoticon_tick_count := 0 }

/-!
Statistics engine (_calculate_median, _find_min_with_index, _find_max_with_index,
lines 45-97). The C functions operate on a 12-element uint16_t window; here they
act on a List Nat of the window values. _calculate_median copies the data and
bubble-sorts the copy; since the model is pure, the source window is unchanged
by construction.
-/

/-- One inner pass of the bubble sort in _calculate_median. The C inner loop
(for fixed outer index) runs j upward while j is below a bound and swaps
adjacent elements when sorted_data at j exceeds the next element; bubble_inner n
performs exactly those compare-and-swap steps among the first n + 1 elements. -/
def bubble_inner : Nat → List Nat → List Nat
  | 0, l => l
  | _ + 1, [] => []
  | _ + 1, [a] => [a]
  | n + 1, a :: b :: rest =>
      if b < a then b :: bubble_inner n (a :: rest) else a :: bubble_inner n (b :: rest)

/-- The outer loop of the bubble sort in _calculate_median: outer iteration i
runs the inner pass with bound count - i - 1; bubble_outer m applies the passes
with bounds m, m - 1, ..., 1, matching the C loop for m = count - 1. -/
def bubble_outer : Nat → List Nat → List Nat
  | 0, l => l
  | n + 1, l => bubble_outer n (bubble_inner (n + 1) l)

/-- Model of _calculate_median (lines 45-69): bubble sort a copy of the data,
then return the middle element (odd count) or the truncated mean of the two
middle elements (even count). For the uint16_t values of the window the C sum
and division do not overflow, so plain Nat arithmetic is exact. -/
def calculate_median (data : List Nat) : Nat :=
  let count := data.length
  let sorted_data := bubble_outer (count - 1) data
  if count % 2 = 0 then
    (sorted_data.getD (count / 2 - 1) 0 + sorted_data.getD (count / 2) 0) / 2
  else
    sorted_data.getD (count / 2) 0

/-- Scan loop of _find_min_with_index (lines 71-83): i runs from 1 upward and the
running best value and best index are overwritten whenever data at i is less
than or equal to the best value. -/
def find_min_scan : List Nat → Nat → Nat × Nat → Nat × Nat
  | [], _, best => best
  | v :: rest, i, best =>
      find_min_scan rest (i + 1) (if v ≤ best.1 then (v, i) else best)

/-- Model of _find_min_with_index: the scan starts from element 0 as the initial
best. The C function reads data at 0 unconditionally; the empty-list case (never
reached, the face always passes a 12-element window) returns the pair (0, 0). -/
def find_min_with_index : List Nat → Nat × Nat
  | [] => (0, 0)
  | v :: rest => find_min_scan rest 1 (v, 0)

/-- Scan loop of _find_max_with_index (lines 85-97): the best pair is overwritten
whenever data at i is greater than or equal to the best value. -/
def find_max_scan : List Nat → Nat → Nat × Nat → Nat × Nat
  | [], _, best => best
  | v :: rest, i, best =>
      find_max_scan rest (i + 1) (if best.1 ≤ v then (v, i) else best)

/-- Model of _find_max_with_index, analogous to find_min_with_index. -/
def find_max_with_index : List Nat → Nat × Nat
  | [] => (0, 0)
  | v :: rest => find_max_scan rest 1 (v, 0)

/-!
Window construction and historical reads.
-/

/-- Element i (0 ≤ i < 12) of the daily 12-element window built by
_activity_logging_handle_histogram_page (lines 275-282) and, with the same index
arithmetic, by _draw_histogram (lines 200-207). In C the index expression is
(state->data_points - 12 + i) % ACTIVITY_LOGGING_NUM_DAYS with uint32_t
data_points (spec section 3), so the subtraction wraps modulo 2^32 before the
capacity modulus is applied; the int result is never negative, leaving
day_index >= data_points as the only live guard of the two in the source. -/
def histogram_window_daily (N data_points : Nat) (activity_log : Nat → Nat)
    (i : Nat) : Nat :=
  let day_index := ((data_points + (U32 - 12) + i) % U32) % N
  if data_points ≤ day_index then 0 else activity_log day_index

/-- Two's-complement value of the C cast (int16_t) applied to a uint32_t. -/
def int16_of_u32 (x : Nat) : Int :=
  if x % U16 < 32768 then ((x % U16 : Nat) : Int) else ((x % U16 : Nat) : Int) - (U16 : Int)

/-- Position computed by _activity_logging_handle_today_page for a historical day
(line 240): ((int16_t)data_points - (int32_t)display_index) % N in int32_t
arithmetic; C's % truncates toward zero, which is Int.tmod. -/
def today_page_pos (N data_points display_index : Nat) : Int :=
  Int.tmod (int16_of_u32 data_points - (display_index : Int)) (N : Int)

/-- Result of the historical branch of _activity_logging_handle_today_page
(lines 237-253, display_index ≥ 1): none models the distinct no-data display,
some v models showing the recorded value v from the ring. -/
def today_page_historical (N data_points display_index : Nat)
    (activity_log : Nat → Nat) : Option Nat :=
  let pos := today_page_pos N data_points display_index
  if pos < 0 then none else some (activity_log pos.toNat)

/-!
Execution harnesses: iterated sampling and iterated daily commits.
-/

/-- Inputs of one per-minute call to activity_logging_face_advise: the wall-clock
hour and minute and the polled motion_absent reading (the A4 pin level). -/
structure AdviseInput where
  hour : Nat
  minute : Nat
  motion_absent : Bool
  deriving DecidableEq, Repr

instance : Inhabited AdviseInput := ⟨⟨0, 0, true⟩⟩

/-- Reading shows motion present exactly when the motion_absent pin reads low. -/
def motion_present (inp : AdviseInput) : Bool := !inp.motion_absent

/-- Iterated sampler: process a list of per-minute readings in order. -/
def advise_run (inputs : List AdviseInput) (s : activity_logging_state_t) :
    activity_logging_state_t :=
  inputs.foldl
    (fun s inp => activity_logging_face_advise inp.hour inp.minute inp.motion_absent s) s

/-- Minute i of the run is credited exactly when the advise call for input i
takes the branch that increments active_minutes_today and the hour slot: the
reading shows motion and the debounce latch is set when the call starts. -/
def credited (inputs : List AdviseInput) (s : activity_logging_state_t) (i : Nat) : Bool :=
  motion_present (inputs.getD i default) &&
    (advise_run (inputs.take i) s).previous_minute_was_active

/-- Number of credited minutes over a run. -/
def credited_count (inputs : List AdviseInput) (s : activity_logging_state_t) : Nat :=
  ((List.range inputs.length).filter (fun i => credited inputs s i)).length

/-- Number of minutes whose reading and predecessor reading both show motion. -/
def consecutive_active_count (inputs : List AdviseInput) : Nat :=
  ((List.range inputs.length).filter
    (fun i => 0 < i && motion_present (inputs.getD i default) &&
      motion_present (inputs.getD (i - 1) default))).length

/-- Harness for the daily ring: perform one midnight commit per entry of totals,
the entry being the value the accumulator holds when that midnight arrives
(the sampler may keep incrementing it up to the commit; the commit reads the
latest value). Commit number k (0-indexed) therefore stores totals entry k. -/
def run_commits (N : Nat) (totals : List Nat) (s : activity_logging_state_t) :
    activity_logging_state_t :=
  totals.foldl
    (fun s t => background_task_commit N { s with active_minutes_today := t }) s

/-!
Theorems for the individual claims.
-/

/-- C3, failing input: the sampler performs plain uint16_t increments and does
not saturate. From a state with active_minutes_today = 1440 and hour slot 10
at 60, one more credited minute yields 1441 and 61; from 65535 the counter
wraps to 0. The spec (sections 3 and 7) requires saturation at 1440 / 60. -/
theorem c3_counters_do_not_saturate :
    (activity_logging_face_advise 10 37 false
      { zero_state with
          active_minutes_today := 1440
          previous_minute_was_active := true
          hourly_data := Function.update zero_state.hourly_data 10 60 }).active_minutes_today
      = 1441 ∧
    (activity_logging_face_advise 10 37 false
      { zero_state with
          active_minutes_today := 1440
          previous_minute_was_active := true
          hourly_data := Function.update zero_state.hourly_data 10 60 }).hourly_data 10
      = 61 ∧
    (activity_logging_face_advise 10 37 false
      { zero_state with
          active_minutes_today := 65535
          previous_minute_was_active := true }).active_minutes_today = 0 := by
  refine ⟨?_, ?_, ?_⟩ <;> decide

/-- C4, counterexample: from a histogram-mode state with display_index = 5, the
long press switches to day mode but leaves display_index at 5; the claim says
the transition entering Day resets display_index to 0. (In the source it is the
transition entering Histogram, lines 382-387, that performs the reset.) -/
theorem c4_counterexample :
    (activity_logging_handle_histogram_events EventType.light_long_press
      { zero_state with mode := Mode.histogram, display_index := 5 }).mode = Mode.day ∧
    (activity_logging_handle_histogram_events EventType.light_long_press
      { zero_state with mode := Mode.histogram, display_index := 5 }).display_index = 5 := by
  exact ⟨rfl, rfl⟩

/-- C4, amended: the long press toggles the mode in both directions; the reset
of display_index to 0 happens on the transition that enters Histogram mode,
while the transition that enters Day mode leaves display_index unchanged. -/
theorem c4_long_press_toggles_mode (N : Nat) (s : activity_logging_state_t) :
    ((activity_logging_handle_day_events N EventType.light_long_press s).mode
        = Mode.histogram ∧
     (activity_logging_handle_day_events N EventType.light_long_press s).display_index
        = 0) ∧
    ((activity_logging_handle_histogram_events EventType.light_long_press s).mode
        = Mode.day ∧
     (activity_logging_handle_histogram_events EventType.light_long_press s).display_index
        = s.display_index) :=
  ⟨⟨rfl, rfl⟩, ⟨rfl, rfl⟩⟩

/-- C2, counterexample: with capacity 30, from a state with data_points = 35,
accumulator 300 and stale value 77 in ring slot 6, the first background task
commits (data_points 36, slot 5 gets 300, slot 6 still 77); delivering the
event a second time is not a no-op: data_points becomes 37 and slot 6 is
overwritten with 0. There is no last-commit-day marker in the code. -/
theorem c2_counterexample :
    (activity_logging_face_loop 30 EventType.background_task
      (activity_logging_face_loop 30 EventType.background_task
        { zero_state with
            active_minutes_today := 300
            data_points := 35
            activity_log := Function.update zero_state.activity_log 6 77 })).data_points
      = 37 ∧
    (activity_logging_face_loop 30 EventType.background_task
      { zero_state with
          active_minutes_today := 300
          data_points := 35
          activity_log := Function.update zero_state.activity_log 6 77 }).data_points
      = 36 ∧
    (activity_logging_face_loop 30 EventType.background_task
      (activity_logging_face_loop 30 EventType.background_task
        { zero_state with
            active_minutes_today := 300
            data_points := 35
            activity_log := Function.update zero_state.activity_log 6 77 })).activity_log 6
      = 0 ∧
    (activity_logging_face_loop 30 EventType.background_task
      { zero_state with
          active_minutes_today := 300
          data_points := 35
          activity_log := Function.update zero_state.activity_log 6 77 }).activity_log 6
      = 77 := by
  refine ⟨?_, ?_, ?_, ?_⟩ <;> decide

/-- C2, amended: a second EVENT_BACKGROUND_TASK delivery without an intervening
midnight performs the shift again rather than no-oping: it overwrites ring slot
data_points mod N with 0 (the accumulator having been reset by the first call)
and increments data_points once more (modulo 2^32); there is no last-commit-day
marker in the implementation. -/
theorem c2_second_commit_not_noop (N : Nat) (s : activity_logging_state_t) :
    (activity_logging_face_loop N EventType.background_task
        (activity_logging_face_loop N EventType.background_task s)).data_points
      = ((activity_logging_face_loop N EventType.background_task s).data_points + 1) % U32 ∧
    (activity_logging_face_loop N EventType.background_task
        (activity_logging_face_loop N EventType.background_task s)).activity_log
      = Function.update
          (activity_logging_face_loop N EventType.background_task s).activity_log
          ((activity_logging_face_loop N EventType.background_task s).data_points % N) 0 ∧
    (activity_logging_face_loop N EventType.background_task
        (activity_logging_face_loop N EventType.background_task s)).active_minutes_today
      = 0 := by
  cases hm : s.mode <;>
    simp [activity_logging_face_loop, activity_logging_handle_day_events,
      activity_logging_handle_histogram_events, background_task_commit, hm]

/-- Both mode handlers ignore EVENT_BACKGROUND_TASK (their default branches), so
the face loop on that event is exactly the commit operation. -/
lemma loop_background_eq_commit (N : Nat) (s : activity_logging_state_t) :
    activity_logging_face_loop N EventType.background_task s
      = background_task_commit N s := by
  cases hm : s.mode <;>
    simp [activity_logging_face_loop, activity_logging_handle_day_events,
      activity_logging_handle_histogram_events, hm]

/-- Value of the day accumulator after one advise call with motion present: an
immediate credit when the latch is set, unchanged (latch being set) otherwise. -/
lemma advise_active_motion_present (hour minute : Nat) (s : activity_logging_state_t) :
    (activity_logging_face_advise hour minute false s).active_minutes_today
      = if s.previous_minute_was_active then (s.active_minutes_today + 1) % U16
        else s.active_minutes_today := by
  simp only [activity_logging_face_advise]
  split_ifs <;> simp_all

/-- C10, counterexample: when data_points is 4294967295 (the largest uint32_t),
the background-task commit wraps it to 0 instead of incrementing it by exactly 1. -/
theorem c10_counterexample :
    (activity_logging_face_loop 30 EventType.background_task
      { zero_state with data_points := 4294967295 }).data_points = 0 := by
  decide

/-- C10, amended: the EVENT_BACKGROUND_TASK branch of the face loop writes the
current accumulator into ring slot data_points mod N, increments data_points by
1 modulo 2^32 (exactly 1 whenever data_points is below 2^32 - 1), resets the
accumulator, and changes nothing else; in particular previous_minute_was_active
and hourly_data are untouched, so the next advise call with motion present
credits a minute immediately when the latch was set, without re-passing the
two-consecutive-minute debounce. -/
theorem c10_commit_frame (N : Nat) (s : activity_logging_state_t) :
    (activity_logging_face_loop N EventType.background_task s).activity_log
      = Function.update s.activity_log (s.data_points % N) s.active_minutes_today ∧
    (activity_logging_face_loop N EventType.background_task s).data_points
      = (s.data_points + 1) % U32 ∧
    (activity_logging_face_loop N EventType.background_task s).active_minutes_today = 0 ∧
    (activity_logging_face_loop N EventType.background_task s).previous_minute_was_active
      = s.previous_minute_was_active ∧
    (activity_logging_face_loop N EventType.background_task s).hourly_data = s.hourly_data ∧
    (activity_logging_face_loop N EventType.background_task s).display_index
      = s.display_index ∧
    (activity_logging_face_loop N EventType.background_task s).mode = s.mode ∧
    (activity_logging_face_loop N EventType.background_task s).histogram_view
      = s.histogram_view ∧
    (activity_logging_face_loop N EventType.background_task s).timeframe_mode
      = s.timeframe_mode ∧
    (activity_logging_face_loop N EventType.background_task s).show_emoticon
      = s.show_emoticon ∧
    (activity_logging_face_loop N EventType.background_task s).emoticon_tick_count
      = s.emoticon_tick_count ∧
    (∀ hour minute,
      (activity_logging_face_advise hour minute false
        (activity_logging_face_loop N EventType.background_task s)).active_minutes_today
      = if s.previous_minute_was_active then 1 else 0) := by
  rw [loop_background_eq_commit]
  refine ⟨rfl, rfl, rfl, rfl, rfl, rfl, rfl, rfl, rfl, rfl, rfl, ?_⟩
  intro hour minute
  rw [advise_active_motion_present]
  cases hp : s.previous_minute_was_active <;> simp [background_task_commit, hp, U16]

/-- C9: for every event processed by the two mode handlers, the tracked-history
fields of the state (active_minutes_today, previous_minute_was_active,
hourly_data, activity_log, data_points) are left unchanged; the handlers only
touch view-selection and emoticon-timing fields. -/
theorem c9_handlers_preserve_tracked_history (N : Nat) (e : EventType)
    (s : activity_logging_state_t) :
    ((activity_logging_handle_day_events N e s).active_minutes_today
        = s.active_minutes_today ∧
     (activity_logging_handle_day_events N e s).previous_minute_was_active
        = s.previous_minute_was_active ∧
     (activity_logging_handle_day_events N e s).hourly_data = s.hourly_data ∧
     (activity_logging_handle_day_events N e s).activity_log = s.activity_log ∧
     (activity_logging_handle_day_events N e s).data_points = s.data_points) ∧
    ((activity_logging_handle_histogram_events e s).active_minutes_today
        = s.active_minutes_today ∧
     (activity_logging_handle_histogram_events e s).previous_minute_was_active
        = s.previous_minute_was_active ∧
     (activity_logging_handle_histogram_events e s).hourly_data = s.hourly_data ∧
     (activity_logging_handle_histogram_events e s).activity_log = s.activity_log ∧
     (activity_logging_handle_histogram_events e s).data_points = s.data_points) := by
  cases e <;>
    simp only [activity_logging_handle_day_events,
      activity_logging_handle_histogram_events] <;>
    (try split_ifs) <;> simp

/-- After any advise call the debounce latch equals the polarity of the reading
just processed: set when motion was present, clear when it was absent. -/
lemma advise_prev_eq (hour minute : Nat) (motion_absent : Bool)
    (s : activity_logging_state_t) :
    (activity_logging_face_advise hour minute motion_absent s).previous_minute_was_active
      = !motion_absent := by
  simp only [activity_logging_face_advise]
  split_ifs <;> simp_all

/-- Unfolding of a run on a list extended by one reading. -/
lemma advise_run_append_singleton (xs : List AdviseInput) (x : AdviseInput)
    (s : activity_logging_state_t) :
    advise_run (xs ++ [x]) s
      = activity_logging_face_advise x.hour x.minute x.motion_absent (advise_run xs s) := by
  simp [advise_run, List.foldl_append]

/-- Splitting a take at a valid index into the shorter take plus that element. -/
lemma take_succ_getD (l : List AdviseInput) (i : Nat) (h : i < l.length) :
    l.take (i + 1) = l.take i ++ [l.getD i default] := by
  rw [List.take_succ]
  congr 1
  simp [List.getD_eq_getElem?_getD, List.getElem?_eq_getElem h]

/-- The latch seen by the call for reading i + 1 is the polarity of reading i. -/
lemma advise_run_take_prev (inputs : List AdviseInput) (s : activity_logging_state_t)
    (i : Nat) (hi : i < inputs.length) :
    (advise_run (inputs.take (i + 1)) s).previous_minute_was_active
      = motion_present (inputs.getD i default) := by
  rw [take_succ_getD inputs i hi, advise_run_append_singleton, advise_prev_eq]
  rfl

/-- C1: starting from a clear debounce latch (the zero-initialized state), the
advise call for reading i takes the crediting branch (incrementing
active_minutes_today and the current hour slot) exactly when reading i shows
motion present and reading i - 1 did too; the first reading of any streak of
motion is never credited, and the number of credited minutes equals, hence is
at most, the number of minutes whose reading and predecessor reading are both
active. -/
theorem c1_sampler_debounce (inputs : List AdviseInput) (s : activity_logging_state_t)
    (hprev : s.previous_minute_was_active = false) :
    (∀ i, i < inputs.length →
      (credited inputs s i = true ↔
        (motion_present (inputs.getD i default) = true ∧ 0 < i ∧
          motion_present (inputs.getD (i - 1) default) = true))) ∧
    credited_count inputs s = consecutive_active_count inputs ∧
    credited_count inputs s ≤ consecutive_active_count inputs := by
  have hstep : ∀ i, i < inputs.length →
      (credited inputs s i = true ↔
        (motion_present (inputs.getD i default) = true ∧ 0 < i ∧
          motion_present (inputs.getD (i - 1) default) = true)) := by
    intro i hi
    unfold credited
    cases i with
    | zero =>
        simp [advise_run, hprev]
    | succ j =>
        rw [advise_run_take_prev inputs s j (Nat.lt_of_succ_lt hi)]
        simp [Nat.succ_sub_one]
  have hcount : credited_count inputs s = consecutive_active_count inputs := by
    unfold credited_count consecutive_active_count
    congr 1
    apply List.filter_congr
    intro i hmem
    have hi : i < inputs.length := List.mem_range.mp hmem
    have hiff := hstep i hi
    rw [Bool.eq_iff_iff, hiff]
    simp only [Bool.and_eq_true, decide_eq_true_eq, ← List.getD_eq_getElem?_getD]
    tauto
  exact ⟨hstep, hcount, le_of_eq hcount⟩

/-- C1, witness: a five-minute run with readings active, active, absent, active,
active credits exactly minutes 1 and 4, matching the two adjacent active pairs. -/
theorem c1_sampler_debounce_witness :
    credited_count
      [⟨10, 5, false⟩, ⟨10, 6, false⟩, ⟨10, 7, true⟩, ⟨10, 8, false⟩, ⟨10, 9, false⟩]
      zero_state
      = consecutive_active_count
        [⟨10, 5, false⟩, ⟨10, 6, false⟩, ⟨10, 7, true⟩, ⟨10, 8, false⟩, ⟨10, 9, false⟩] :=
  (c1_sampler_debounce
    [⟨10, 5, false⟩, ⟨10, 6, false⟩, ⟨10, 7, true⟩, ⟨10, 8, false⟩, ⟨10, 9, false⟩]
    zero_state rfl).2.1

/-- Value of getD on a snoc list at an index inside the prefix. -/
lemma getD_append_lt (l : List Nat) (x : Nat) (j : Nat) (h : j < l.length) :
    (l ++ [x]).getD j 0 = l.getD j 0 := by
  simp [List.getD_eq_getElem?_getD, List.getElem?_append_left h]

/-- Value of getD on a snoc list at the appended position. -/
lemma getD_append_len (l : List Nat) (x : Nat) :
    (l ++ [x]).getD l.length 0 = x := by
  simp [List.getD_eq_getElem?_getD]

/-- Effect of one more element at the end of the min scan: it takes over the
best pair (at its own index) exactly when it is less than or equal to the
result of the scan without it. -/
lemma find_min_scan_snoc (rest : List Nat) (x : Nat) (i : Nat) (best : Nat × Nat) :
    find_min_scan (rest ++ [x]) i best
      = if x ≤ (find_min_scan rest i best).1 then (x, i + rest.length)
        else find_min_scan rest i best := by
  induction rest generalizing i best with
  | nil => simp [find_min_scan]
  | cons v t ih =>
      have hl : find_min_scan ((v :: t) ++ [x]) i best
          = find_min_scan (t ++ [x]) (i + 1) (if v ≤ best.1 then (v, i) else best) := rfl
      have hr : find_min_scan (v :: t) i best
          = find_min_scan t (i + 1) (if v ≤ best.1 then (v, i) else best) := rfl
      rw [hl, hr, ih]
      have harith : i + 1 + t.length = i + (v :: t).length := by
        simp only [List.length_cons]
        omega
      rw [harith]

/-- Snoc unfolding of the whole min search, for a nonempty prefix. -/
lemma find_min_with_index_snoc (v : Nat) (rest : List Nat) (x : Nat) :
    find_min_with_index ((v :: rest) ++ [x])
      = if x ≤ (find_min_with_index (v :: rest)).1
        then (x, (v :: rest).length)
        else find_min_with_index (v :: rest) := by
  have hl : find_min_with_index ((v :: rest) ++ [x])
      = find_min_scan (rest ++ [x]) 1 (v, 0) := rfl
  have hr : find_min_with_index (v :: rest) = find_min_scan rest 1 (v, 0) := rfl
  rw [hl, hr, find_min_scan_snoc]
  have harith : 1 + rest.length = (v :: rest).length := by
    simp only [List.length_cons]
    omega
  rw [harith]

/-- Characterization of _find_min_with_index on a nonempty window: it returns
the minimum value of the window together with the index of its last occurrence
(the scan overwrites the best pair on less-than-or-equal). -/
lemma find_min_with_index_spec (l : List Nat) (h : 0 < l.length) :
    (find_min_with_index l).2 < l.length ∧
    l.getD (find_min_with_index l).2 0 = (find_min_with_index l).1 ∧
    (∀ j, j < l.length → (find_min_with_index l).1 ≤ l.getD j 0) ∧
    (∀ j, (find_min_with_index l).2 < j → j < l.length →
      (find_min_with_index l).1 < l.getD j 0) := by
  induction l using List.reverseRecOn with
  | nil => simp at h
  | append_singleton xs x ih =>
      cases xs with
      | nil =>
          refine ⟨by simp [find_min_with_index, find_min_scan], ?_, ?_, ?_⟩
          · simp [find_min_with_index, find_min_scan]
          · intro j hj
            simp only [List.nil_append, List.length_cons, List.length_nil] at hj
            have hj0 : j = 0 := by omega
            subst hj0
            simp [find_min_with_index, find_min_scan]
          · intro j hj hj2
            simp only [List.nil_append, List.length_cons, List.length_nil] at hj2
            simp [find_min_with_index, find_min_scan] at hj
            omega
      | cons v rest =>
          have hxs : 0 < (v :: rest).length := by simp
          obtain ⟨ih1, ih2, ih3, ih4⟩ := ih hxs
          rw [find_min_with_index_snoc]
          by_cases hle : x ≤ (find_min_with_index (v :: rest)).1
          · rw [if_pos hle]
            refine ⟨by simp, getD_append_len (v :: rest) x, ?_, ?_⟩
            · intro j hj
              rcases Nat.lt_or_ge j (v :: rest).length with hlt | hge
              · rw [getD_append_lt _ _ _ hlt]
                exact le_trans hle (ih3 j hlt)
              · have hj2 : j = (v :: rest).length := by
                  simp only [List.length_append, List.length_cons, List.length_nil] at hj
                  simp only [List.length_cons] at hge
                  simp only [List.length_cons]
                  omega
                subst hj2
                rw [getD_append_len]
            · intro j hj hj2
              have hj3 : (v :: rest).length < j := hj
              simp only [List.length_append, List.length_cons, List.length_nil] at hj2
              simp only [List.length_cons] at hj3
              omega
          · rw [if_neg hle]
            have hxgt : (find_min_with_index (v :: rest)).1 < x := not_le.mp hle
            refine ⟨?_, ?_, ?_, ?_⟩
            · simp only [List.length_append, List.length_cons, List.length_nil]
              simp only [List.length_cons] at ih1
              omega
            · rw [getD_append_lt _ _ _ ih1]
              exact ih2
            · intro j hj
              rcases Nat.lt_or_ge j (v :: rest).length with hlt | hge
              · rw [getD_append_lt _ _ _ hlt]
                exact ih3 j hlt
              · have hj2 : j = (v :: rest).length := by
                  simp only [List.length_append, List.length_cons, List.length_nil] at hj
                  simp only [List.length_cons] at hge
                  simp only [List.length_cons]
                  omega
                subst hj2
                rw [getD_append_len]
                exact le_of_lt hxgt
            · intro j hj hj2
              rcases Nat.lt_or_ge j (v :: rest).length with hlt | hge
              · rw [getD_append_lt _ _ _ hlt]
                exact ih4 j hj hlt
              · have hj3 : j = (v :: rest).length := by
                  simp only [List.length_append, List.length_cons, List.length_nil] at hj2
                  simp only [List.length_cons] at hge
                  simp only [List.length_cons]
                  omega
                subst hj3
                rw [getD_append_len]
                exact hxgt

/-- Effect of one more element at the end of the max scan: it takes over the
best pair exactly when it is greater than or equal to the scan result so far. -/
lemma find_max_scan_snoc (rest : List Nat) (x : Nat) (i : Nat) (best : Nat × Nat) :
    find_max_scan (rest ++ [x]) i best
      = if (find_max_scan rest i best).1 ≤ x then (x, i + rest.length)
        else find_max_scan rest i best := by
  induction rest generalizing i best with
  | nil => simp [find_max_scan]
  | cons v t ih =>
      have hl : find_max_scan ((v :: t) ++ [x]) i best
          = find_max_scan (t ++ [x]) (i + 1) (if best.1 ≤ v then (v, i) else best) := rfl
      have hr : find_max_scan (v :: t) i best
          = find_max_scan t (i + 1) (if best.1 ≤ v then (v, i) else best) := rfl
      rw [hl, hr, ih]
      have harith : i + 1 + t.length = i + (v :: t).length := by
        simp only [List.length_cons]
        omega
      rw [harith]

/-- Snoc unfolding of the whole max search, for a nonempty prefix. -/
lemma find_max_with_index_snoc (v : Nat) (rest : List Nat) (x : Nat) :
    find_max_with_index ((v :: rest) ++ [x])
      = if (find_max_with_index (v :: rest)).1 ≤ x
        then (x, (v :: rest).length)
        else find_max_with_index (v :: rest) := by
  have hl : find_max_with_index ((v :: rest) ++ [x])
      = find_max_scan (rest ++ [x]) 1 (v, 0) := rfl
  have hr : find_max_with_index (v :: rest) = find_max_scan rest 1 (v, 0) := rfl
  rw [hl, hr, find_max_scan_snoc]
  have harith : 1 + rest.length = (v :: rest).length := by
    simp only [List.length_cons]
    omega
  rw [harith]

/-- Characterization of _find_max_with_index on a nonempty window: it returns
the maximum value of the window together with the index of its last occurrence
(the scan overwrites the best pair on greater-than-or-equal). -/
lemma find_max_with_index_spec (l : List Nat) (h : 0 < l.length) :
    (find_max_with_index l).2 < l.length ∧
    l.getD (find_max_with_index l).2 0 = (find_max_with_index l).1 ∧
    (∀ j, j < l.length → l.getD j 0 ≤ (find_max_with_index l).1) ∧
    (∀ j, (find_max_with_index l).2 < j → j < l.length →
      l.getD j 0 < (find_max_with_index l).1) := by
  induction l using List.reverseRecOn with
  | nil => simp at h
  | append_singleton xs x ih =>
      cases xs with
      | nil =>
          refine ⟨by simp [find_max_with_index, find_max_scan], ?_, ?_, ?_⟩
          · simp [find_max_with_index, find_max_scan]
          · intro j hj
            simp only [List.nil_append, List.length_cons, List.length_nil] at hj
            have hj0 : j = 0 := by omega
            subst hj0
            simp [find_max_with_index, find_max_scan]
          · intro j hj hj2
            simp only [List.nil_append, List.length_cons, List.length_nil] at hj2
            simp [find_max_with_index, find_max_scan] at hj
            omega
      | cons v rest =>
          have hxs : 0 < (v :: rest).length := by simp
          obtain ⟨ih1, ih2, ih3, ih4⟩ := ih hxs
          rw [find_max_with_index_snoc]
          by_cases hle : (find_max_with_index (v :: rest)).1 ≤ x
          · rw [if_pos hle]
            refine ⟨by simp, getD_append_len (v :: rest) x, ?_, ?_⟩
            · intro j hj
              rcases Nat.lt_or_ge j (v :: rest).length with hlt | hge
              · rw [getD_append_lt _ _ _ hlt]
                exact le_trans (ih3 j hlt) hle
              · have hj2 : j = (v :: rest).length := by
                  simp only [List.length_append, List.length_cons, List.length_nil] at hj
                  simp only [List.length_cons] at hge
                  simp only [List.length_cons]
                  omega
                subst hj2
                rw [getD_append_len]
            · intro j hj hj2
              have hj3 : (v :: rest).length < j := hj
              simp only [List.length_append, List.length_cons, List.length_nil] at hj2
              simp only [List.length_cons] at hj3
              omega
          · rw [if_neg hle]
            have hxlt : x < (find_max_with_index (v :: rest)).1 := not_le.mp hle
            refine ⟨?_, ?_, ?_, ?_⟩
            · simp only [List.length_append, List.length_cons, List.length_nil]
              simp only [List.length_cons] at ih1
              omega
            · rw [getD_append_lt _ _ _ ih1]
              exact ih2
            · intro j hj
              rcases Nat.lt_or_ge j (v :: rest).length with hlt | hge
              · rw [getD_append_lt _ _ _ hlt]
                exact ih3 j hlt
              · have hj2 : j = (v :: rest).length := by
                  simp only [List.length_append, List.length_cons, List.length_nil] at hj
                  simp only [List.length_cons] at hge
                  simp only [List.length_cons]
                  omega
                subst hj2
                rw [getD_append_len]
                exact le_of_lt hxlt
            · intro j hj hj2
              rcases Nat.lt_or_ge j (v :: rest).length with hlt | hge
              · rw [getD_append_lt _ _ _ hlt]
                exact ih4 j hj hlt
              · have hj3 : j = (v :: rest).length := by
                  simp only [List.length_append, List.length_cons, List.length_nil] at hj2
                  simp only [List.length_cons] at hge
                  simp only [List.length_cons]
                  omega
                subst hj3
                rw [getD_append_len]
                exact hxlt

/-- C7: the min scan returns the minimum value of the window with the index of
its last occurrence (overwriting on less-than-or-equal resolves ties to the
highest index), the max scan dually returns the maximum with the index of its
last occurrence, and on the window 3,7,3,7,... the results are (3, 10) and
(7, 11). -/
theorem c7_min_max_with_last_index (l : List Nat) (h : 0 < l.length) :
    ((find_min_with_index l).2 < l.length ∧
     l.getD (find_min_with_index l).2 0 = (find_min_with_index l).1 ∧
     (∀ j, j < l.length → (find_min_with_index l).1 ≤ l.getD j 0) ∧
     (∀ j, (find_min_with_index l).2 < j → j < l.length →
       (find_min_with_index l).1 < l.getD j 0)) ∧
    ((find_max_with_index l).2 < l.length ∧
     l.getD (find_max_with_index l).2 0 = (find_max_with_index l).1 ∧
     (∀ j, j < l.length → l.getD j 0 ≤ (find_max_with_index l).1) ∧
     (∀ j, (find_max_with_index l).2 < j → j < l.length →
       l.getD j 0 < (find_max_with_index l).1)) ∧
    find_min_with_index [3, 7, 3, 7, 3, 7, 3, 7, 3, 7, 3, 7] = (3, 10) ∧
    find_max_with_index [3, 7, 3, 7, 3, 7, 3, 7, 3, 7, 3, 7] = (7, 11) :=
  ⟨find_min_with_index_spec l h, find_max_with_index_spec l h, by decide, by decide⟩

/-- C7, witness: instantiating the characterization on the tie-break window. -/
theorem c7_min_max_with_last_index_witness :
    find_min_with_index [3, 7, 3, 7, 3, 7, 3, 7, 3, 7, 3, 7] = (3, 10) ∧
    find_max_with_index [3, 7, 3, 7, 3, 7, 3, 7, 3, 7, 3, 7] = (7, 11) :=
  ⟨(c7_min_max_with_last_index [3, 7, 3, 7, 3, 7, 3, 7, 3, 7, 3, 7] (by decide)).2.2.1,
   (c7_min_max_with_last_index [3, 7, 3, 7, 3, 7, 3, 7, 3, 7, 3, 7] (by decide)).2.2.2⟩

/-- One inner pass on a one-element list is the identity, whatever the bound. -/
lemma bubble_inner_singleton (n : Nat) (a : Nat) : bubble_inner n [a] = [a] := by
  cases n <;> rfl

/-- One inner pass permutes the list. -/
lemma bubble_inner_perm (n : Nat) (l : List Nat) : List.Perm (bubble_inner n l) l := by
  induction n generalizing l with
  | zero => rfl
  | succ n ih =>
      match l with
      | [] => rfl
      | [a] => rfl
      | a :: b :: rest =>
          show List.Perm (if b < a then b :: bubble_inner n (a :: rest)
                else a :: bubble_inner n (b :: rest)) (a :: b :: rest)
          by_cases hba : b < a
          · rw [if_pos hba]
            exact ((ih (a :: rest)).cons b).trans (List.Perm.swap a b rest)
          · rw [if_neg hba]
            exact (ih (b :: rest)).cons a

/-- A maximal last element rides along unchanged through an inner pass. -/
lemma bubble_inner_snoc_max (n : Nat) (l : List Nat) (m : Nat)
    (hm : ∀ y ∈ l, y ≤ m) :
    bubble_inner n (l ++ [m]) = bubble_inner n l ++ [m] := by
  induction n generalizing l with
  | zero => rfl
  | succ n ih =>
      match l with
      | [] => rfl
      | [a] =>
          show (if m < a then m :: bubble_inner n [a] else a :: bubble_inner n [m])
            = [a] ++ [m]
          have ham : a ≤ m := hm a (by simp)
          rw [if_neg (by omega), bubble_inner_singleton]
          rfl
      | a :: b :: rest =>
          have hm2 : ∀ y ∈ a :: rest, y ≤ m := by
            intro y hy
            rcases List.mem_cons.mp hy with hya | hyr
            · exact hya ▸ hm a (by simp)
            · exact hm y (by simp [hyr])
          have hm3 : ∀ y ∈ b :: rest, y ≤ m := by
            intro y hy
            rcases List.mem_cons.mp hy with hyb | hyr
            · exact hyb ▸ hm b (by simp)
            · exact hm y (by simp [hyr])
          show (if b < a then b :: bubble_inner n ((a :: rest) ++ [m])
                else a :: bubble_inner n ((b :: rest) ++ [m]))
            = (if b < a then b :: bubble_inner n (a :: rest)
                else a :: bubble_inner n (b :: rest)) ++ [m]
          by_cases hba : b < a
          · rw [if_pos hba, if_pos hba, ih (a :: rest) hm2]
            rfl
          · rw [if_neg hba, if_neg hba, ih (b :: rest) hm3]
            rfl

/-- A full inner pass (bound covering the whole list) moves some maximum of the
list into the last position. -/
lemma bubble_inner_max_last (n : Nat) (l : List Nat) (hne : l ≠ [])
    (hlen : l.length ≤ n + 1) :
    ∃ l2 m, bubble_inner n l = l2 ++ [m] ∧ ∀ y ∈ l, y ≤ m := by
  induction n generalizing l with
  | zero =>
      match l, hne with
      | [a], _ => exact ⟨[], a, rfl, by simp⟩
      | a :: b :: rest, _ => simp at hlen
  | succ n ih =>
      match l, hne with
      | [a], _ => exact ⟨[], a, rfl, by simp⟩
      | a :: b :: rest, _ =>
          by_cases hba : b < a
          · obtain ⟨l2, m, heq, hmax⟩ := ih (a :: rest) (by simp)
              (by simp only [List.length_cons] at hlen ⊢; omega)
            refine ⟨b :: l2, m, ?_, ?_⟩
            · show (if b < a then b :: bubble_inner n (a :: rest)
                    else a :: bubble_inner n (b :: rest)) = b :: l2 ++ [m]
              rw [if_pos hba, heq]
              exact (List.cons_append b l2 [m]).symm
            · intro y hy
              have ham : a ≤ m := hmax a (by simp)
              rcases List.mem_cons.mp hy with hya | hy2
              · omega
              · rcases List.mem_cons.mp hy2 with hyb | hyr
                · subst hyb
                  omega
                · exact hmax y (by simp [hyr])
          · obtain ⟨l2, m, heq, hmax⟩ := ih (b :: rest) (by simp)
              (by simp only [List.length_cons] at hlen ⊢; omega)
            refine ⟨a :: l2, m, ?_, ?_⟩
            · show (if b < a then b :: bubble_inner n (a :: rest)
                    else a :: bubble_inner n (b :: rest)) = a :: l2 ++ [m]
              rw [if_neg hba, heq]
              exact (List.cons_append a l2 [m]).symm
            · intro y hy
              have hbm : b ≤ m := hmax b (by simp)
              rcases List.mem_cons.mp hy with hya | hy2
              · subst hya
                omega
              · rcases List.mem_cons.mp hy2 with hyb | hyr
                · subst hyb
                  omega
                · exact hmax y (by simp [hyr])

/-- The outer loop permutes the list. -/
lemma bubble_outer_perm (n : Nat) (l : List Nat) : List.Perm (bubble_outer n l) l := by
  induction n generalizing l with
  | zero => rfl
  | succ n ih => exact (ih (bubble_inner (n + 1) l)).trans (bubble_inner_perm (n + 1) l)

/-- A maximal last element rides along unchanged through the whole outer loop. -/
lemma bubble_outer_snoc_max (n : Nat) (l : List Nat) (m : Nat)
    (hm : ∀ y ∈ l, y ≤ m) :
    bubble_outer n (l ++ [m]) = bubble_outer n l ++ [m] := by
  induction n generalizing l with
  | zero => rfl
  | succ n ih =>
      show bubble_outer n (bubble_inner (n + 1) (l ++ [m]))
        = bubble_outer n (bubble_inner (n + 1) l) ++ [m]
      rw [bubble_inner_snoc_max (n + 1) l m hm]
      exact ih (bubble_inner (n + 1) l)
        (fun y hy => hm y ((bubble_inner_perm (n + 1) l).mem_iff.mp hy))

/-- With enough passes (count - 1 passes for a list of length count, as in the
C loop) the outer loop sorts the list. -/
lemma bubble_outer_sorted (n : Nat) (l : List Nat) (hlen : l.length ≤ n + 1) :
    (bubble_outer n l).Sorted (· ≤ ·) := by
  induction n generalizing l with
  | zero =>
      match l with
      | [] => simp [bubble_outer]
      | [a] => simp [bubble_outer]
      | a :: b :: rest => simp at hlen
  | succ n ih =>
      match l with
      | [] =>
          show (bubble_outer n (bubble_inner (n + 1) [])).Sorted (· ≤ ·)
          exact ih [] (by simp)
      | a :: rest =>
          obtain ⟨l2, m, heq, hmax⟩ := bubble_inner_max_last (n + 1) (a :: rest)
            (by simp) (by simp only [List.length_cons] at hlen ⊢; omega)
          show (bubble_outer n (bubble_inner (n + 1) (a :: rest))).Sorted (· ≤ ·)
          rw [heq]
          have hm2 : ∀ y ∈ l2, y ≤ m := by
            intro y hy
            have hy2 : y ∈ bubble_inner (n + 1) (a :: rest) := by
              rw [heq]
              exact List.mem_append.mpr (Or.inl hy)
            exact hmax y ((bubble_inner_perm (n + 1) (a :: rest)).mem_iff.mp hy2)
          rw [bubble_outer_snoc_max n l2 m hm2]
          have hlen2 : l2.length ≤ n + 1 := by
            have hp := (bubble_inner_perm (n + 1) (a :: rest)).length_eq
            rw [heq] at hp
            simp only [List.length_append, List.length_cons, List.length_nil] at hp hlen
            omega
          have hsorted := ih l2 hlen2
          unfold List.Sorted at hsorted ⊢
          rw [List.pairwise_append]
          refine ⟨hsorted, List.pairwise_singleton _ m, fun y hy b hb => ?_⟩
          simp only [List.mem_singleton] at hb
          subst hb
          exact hm2 y ((bubble_outer_perm n l2).mem_iff.mp hy)

/-- The bubble sort of _calculate_median computes the canonical ascending sort. -/
lemma bubble_outer_eq_insertionSort (l : List Nat) :
    bubble_outer (l.length - 1) l = List.insertionSort (· ≤ ·) l := by
  have hsort : (bubble_outer (l.length - 1) l).Sorted (· ≤ ·) := by
    apply bubble_outer_sorted
    cases l <;> simp
  exact List.eq_of_perm_of_sorted
    ((bubble_outer_perm (l.length - 1) l).trans (List.perm_insertionSort (· ≤ ·) l).symm)
    hsort (List.sorted_insertionSort (· ≤ ·) l)

/-- C6: on every 12-element window the median function returns the truncated
arithmetic mean of the 6th and 7th smallest values (the two central values of
the canonical ascending sort); the model is a pure function of the window, the
C code computing on a private copy; and the two example windows give 6 and 5. -/
theorem c6_median_of_central_values (data : List Nat) (h : data.length = 12) :
    calculate_median data
      = ((List.insertionSort (· ≤ ·) data).getD 5 0
          + (List.insertionSort (· ≤ ·) data).getD 6 0) / 2 ∧
    calculate_median [1, 2, 3, 4, 5, 6, 7, 8, 9, 10, 11, 12] = 6 ∧
    calculate_median [5, 5, 5, 5, 5, 5, 5, 5, 5, 5, 5, 4] = 5 := by
  refine ⟨?_, by decide, by decide⟩
  have hb := bubble_outer_eq_insertionSort data
  rw [h] at hb
  norm_num at hb
  simp [calculate_median, h, hb]

/-- C6, witness: the characterization instantiated on a shuffled window. -/
theorem c6_median_of_central_values_witness :
    calculate_median [12, 3, 7, 1, 9, 2, 11, 4, 8, 5, 10, 6]
      = ((List.insertionSort (· ≤ ·) [12, 3, 7, 1, 9, 2, 11, 4, 8, 5, 10, 6]).getD 5 0
          + (List.insertionSort (· ≤ ·) [12, 3, 7, 1, 9, 2, 11, 4, 8, 5, 10, 6]).getD 6 0) / 2 :=
  (c6_median_of_central_values [12, 3, 7, 1, 9, 2, 11, 4, 8, 5, 10, 6] (by decide)).1

/-- Value of the int16_t cast on a uint32_t below 32768: the identity. -/
lemma int16_of_u32_small (D : Nat) (h : D < 32768) : int16_of_u32 D = (D : Int) := by
  unfold int16_of_u32
  have h1 : D % U16 = D := Nat.mod_eq_of_lt (by unfold U16; omega)
  rw [h1, if_pos h]

/-- C8, counterexample: with capacity 30 and data_points = 32768, requesting the
day 1 back yields the no-data result even though 1 ≤ 32768: the (int16_t) cast
on line 240 maps 32768 to -32768, making the computed position negative. The
claim requires the recorded value of slot (32768 - 1) mod 30 = 7 instead. -/
theorem c8_counterexample :
    today_page_historical 30 32768 1 (fun i => 500 + i) = none := by
  decide

/-- C8, amended: for data_points below 32768 (the range where the int16_t cast
is the identity) and 1 ≤ display_index < N, the historical page reports the
distinct no-data result exactly when the requested day is beyond committed
history, and otherwise displays the value of ring slot (data_points -
display_index) mod N, whatever that value is; in particular a recorded 0 is
displayed as 0, never as no data. -/
theorem c8_historical_read (N D d : Nat) (log : Nat → Nat)
    (hD : D < 32768) (hd1 : 1 ≤ d) (hdN : d < N) :
    (today_page_historical N D d log = none ↔ D < d) ∧
    (d ≤ D → today_page_historical N D d log = some (log ((D - d) % N))) := by
  unfold today_page_historical today_page_pos
  rw [int16_of_u32_small D hD]
  rcases le_or_lt d D with hle | hlt
  · have hcast : (D : Int) - (d : Int) = ((D - d : Nat) : Int) := by
      omega
    have hmod : Int.tmod ((D - d : Nat) : Int) (N : Int)
        = (((D - d) % N : Nat) : Int) := by
      rw [Int.tmod_eq_emod (by positivity) (by positivity)]
      push_cast
      ring
    rw [hcast, hmod]
    have hnotneg : ¬ ((((D - d) % N : Nat) : Int) < 0) := by
      exact not_lt.mpr (by positivity)
    rw [if_neg hnotneg]
    constructor
    · simp [Nat.not_lt.mpr hle]
    · intro _
      congr 2
  · have hcast : (D : Int) - (d : Int) = -(((d - D : Nat)) : Int) := by
      omega
    have hklt : ((d - D : Nat) : Int) < (N : Int) := by
      exact_mod_cast Nat.lt_of_le_of_lt (Nat.sub_le d D) hdN
    have htmod : Int.tmod (-((d - D : Nat) : Int)) (N : Int)
        = -((d - D : Nat) : Int) := by
      rw [Int.tmod_def, Int.neg_tdiv, Int.tdiv_eq_zero_of_lt (by positivity) hklt]
      ring
    rw [hcast, htmod]
    have hneg : -(((d - D : Nat)) : Int) < 0 := by
      have : (1 : Int) ≤ ((d - D : Nat) : Int) := by
        exact_mod_cast Nat.le_sub_of_add_le (by omega)
      omega
    rw [if_pos hneg]
    constructor
    · simp [hlt]
    · intro hcon
      omega

/-- C8, witness: with capacity 30, data_points 100, display_index 1, the page
shows the value of ring slot 99 mod 30 = 9. -/
theorem c8_historical_read_witness :
    today_page_historical 30 100 1 (fun i => 1000 + i) = some 1009 := by
  have h := (c8_historical_read 30 100 1 (fun i => 1000 + i)
    (by decide) (by decide) (by decide)).2 (by decide)
  simpa using h

/-- Unfolding of the commit harness on one more day. -/
lemma run_commits_snoc (N : Nat) (totals : List Nat) (t : Nat)
    (s : activity_logging_state_t) :
    run_commits N (totals ++ [t]) s
      = background_task_commit N
          { run_commits N totals s with active_minutes_today := t } := by
  simp [run_commits, List.foldl_append]

/-- After fewer than 2^32 commits from the zero state, data_points counts the
commits exactly (no uint32_t wraparound has occurred). -/
lemma run_commits_data_points (N : Nat) (totals : List Nat)
    (h : totals.length < U32) :
    (run_commits N totals zero_state).data_points = totals.length := by
  induction totals using List.reverseRecOn with
  | nil => rfl
  | append_singleton ts t ih =>
      have hlen : (ts ++ [t]).length = ts.length + 1 := by simp
      have hts : ts.length < U32 := by
        rw [hlen] at h
        omega
      rw [run_commits_snoc]
      show ((run_commits N ts zero_state).data_points + 1) % U32 = (ts ++ [t]).length
      rw [ih hts, hlen]
      exact Nat.mod_eq_of_lt (by rw [hlen] at h; omega)

/-- Two numbers with equal residues differ by at least the modulus. -/
lemma ge_add_of_mod_eq (N j k : Nat) (hjk : k < j) (hmod : j % N = k % N) :
    k + N ≤ j := by
  have hdvd : N ∣ j - k := (Nat.modEq_iff_dvd' (le_of_lt hjk)).mp hmod.symm
  obtain ⟨c, hc⟩ := hdvd
  have hc1 : 1 ≤ c := by
    rcases Nat.eq_zero_or_pos c with h0 | h1
    · subst h0
      omega
    · exact h1
  have hmul : N * 1 ≤ N * c := Nat.mul_le_mul_left N hc1
  omega

/-- Ring content after a run of commits from the zero state: slot k mod N holds
the total of commit k whenever no later commit wrote the same slot. -/
lemma run_commits_log_last_write (N : Nat) (totals : List Nat)
    (h : totals.length < U32) (k : Nat) (hk : k < totals.length)
    (hlast : ∀ j, k < j → j < totals.length → j % N ≠ k % N) :
    (run_commits N totals zero_state).activity_log (k % N) = totals.getD k 0 := by
  induction totals using List.reverseRecOn with
  | nil => simp at hk
  | append_singleton ts t ih =>
      have hlen : (ts ++ [t]).length = ts.length + 1 := by simp
      have hts : ts.length < U32 := by
        rw [hlen] at h
        omega
      rw [run_commits_snoc]
      show Function.update (run_commits N ts zero_state).activity_log
          ((run_commits N ts zero_state).data_points % N) t (k % N)
        = (ts ++ [t]).getD k 0
      rw [run_commits_data_points N ts hts]
      rcases Nat.lt_or_ge k ts.length with hlt | hge
      · have hne : k % N ≠ ts.length % N := by
          intro heqmod
          exact hlast ts.length hlt (by rw [hlen]; omega) heqmod.symm
        rw [Function.update_noteq hne, getD_append_lt ts t k hlt]
        apply ih hts hlt
        intro j hj1 hj2
        exact hlast j hj1 (by rw [hlen]; omega)
      · have hkeq : k = ts.length := by
          rw [hlen] at hk
          omega
        subst hkeq
        rw [Function.update_same]
        exact (getD_append_len ts t).symm

/-- Ring slots never written by any commit of the run still hold the zero of the
initial state. -/
lemma run_commits_log_unwritten (N : Nat) (totals : List Nat) (s : Nat)
    (h : totals.length < U32)
    (hs : ∀ k, k < totals.length → k % N ≠ s) :
    (run_commits N totals zero_state).activity_log s = 0 := by
  induction totals using List.reverseRecOn with
  | nil => rfl
  | append_singleton ts t ih =>
      have hlen : (ts ++ [t]).length = ts.length + 1 := by simp
      have hts : ts.length < U32 := by
        rw [hlen] at h
        omega
      rw [run_commits_snoc]
      show Function.update (run_commits N ts zero_state).activity_log
          ((run_commits N ts zero_state).data_points % N) t s = 0
      rw [run_commits_data_points N ts hts]
      have hne : s ≠ ts.length % N := by
        intro heq
        exact hs ts.length (by rw [hlen]; omega) heq.symm
      rw [Function.update_noteq hne]
      apply ih hts
      intro kk hkk
      exact hs kk (by rw [hlen]; omega)

/-- C5, counterexample: with capacity 13 and 11 commits of totals 1..11, window
element 0 has no corresponding commit (11 + 0 < 12), so the claim requires the
no-data value 0; but the uint32_t index arithmetic wraps to ring slot
(2^32 - 1) mod 13 = 8 < 11, and the element is 9, the total of commit 8 — the
content of an unrelated ring slot. -/
theorem c5_counterexample :
    (run_commits 13 [1, 2, 3, 4, 5, 6, 7, 8, 9, 10, 11] zero_state).data_points = 11 ∧
    histogram_window_daily 13
      (run_commits 13 [1, 2, 3, 4, 5, 6, 7, 8, 9, 10, 11] zero_state).data_points
      (run_commits 13 [1, 2, 3, 4, 5, 6, 7, 8, 9, 10, 11] zero_state).activity_log 0
      = 9 := by
  refine ⟨?_, ?_⟩ <;> decide

/-- C5, amended: with any capacity N ≥ 12 and D committed days (D below 2^32),
window element i (i < 12) equals the total of commit D - 12 + i whenever that
commit exists (D + i ≥ 12); when it does not, the uint32_t subtraction wraps to
ring slot (2^32 - 12 + D + i) mod N, and the element is 0 exactly when that slot
index is at least D (no commit ever wrote it, which holds for some capacities,
such as 30, but not all), and otherwise is the total of commit
(2^32 - 12 + D + i) mod N — the content of an unrelated ring slot. -/
theorem c5_daily_window (N : Nat) (hN : 12 ≤ N) (totals : List Nat)
    (hlen : totals.length < U32) (i : Nat) (hi : i < 12) :
    histogram_window_daily N (run_commits N totals zero_state).data_points
      (run_commits N totals zero_state).activity_log i
      = if 12 ≤ totals.length + i
        then totals.getD (totals.length + i - 12) 0
        else if totals.length ≤ (U32 - 12 + totals.length + i) % N then 0
          else totals.getD ((U32 - 12 + totals.length + i) % N) 0 := by
  rcases Nat.lt_or_ge (totals.length + i) 12 with hsmall | hbig
  · rw [if_neg (by omega)]
    unfold histogram_window_daily
    rw [run_commits_data_points N totals hlen]
    have harg : (totals.length + (U32 - 12) + i) % U32
        = U32 - 12 + totals.length + i := by
      have hU : U32 = 4294967296 := rfl
      rw [hU] at hlen ⊢
      omega
    rw [harg]
    rcases Nat.lt_or_ge ((U32 - 12 + totals.length + i) % N) totals.length with hslot | hslot
    · rw [if_neg (by omega), if_neg (by omega)]
      have hsN : (U32 - 12 + totals.length + i) % N % N
          = (U32 - 12 + totals.length + i) % N :=
        Nat.mod_eq_of_lt (Nat.mod_lt _ (by omega))
      have := run_commits_log_last_write N totals hlen
        ((U32 - 12 + totals.length + i) % N) hslot
        (fun j hj1 hj2 heq => by
          have hjN : j % N = j := Nat.mod_eq_of_lt (by omega)
          rw [hsN, hjN] at heq
          omega)
      rw [hsN] at this
      exact this
    · rw [if_pos (by omega), if_pos (by omega)]
  · rw [if_pos hbig]
    unfold histogram_window_daily
    rw [run_commits_data_points N totals hlen]
    have harg : (totals.length + (U32 - 12) + i) % U32
        = totals.length + i - 12 := by
      have hU : U32 = 4294967296 := rfl
      rw [hU] at hlen ⊢
      omega
    rw [harg]
    have hklt : totals.length + i - 12 < totals.length := by omega
    have hkmod : (totals.length + i - 12) % N ≤ totals.length + i - 12 :=
      Nat.mod_le _ _
    rw [if_neg (by omega)]
    have := run_commits_log_last_write N totals hlen (totals.length + i - 12) hklt
      (fun j hj1 hj2 heq => by
        have hge := ge_add_of_mod_eq N j (totals.length + i - 12) hj1 heq
        omega)
    exact this

/-- C5, witness: with capacity 30 and 11 commits of totals 1..11, element 1 of
the window corresponds to commit 0 and equals 1, and element 0 (no commit)
is 0 because (2^32 - 12 + 11) mod 30 = 15 is at least 11. -/
theorem c5_daily_window_witness :
    histogram_window_daily 30
      (run_commits 30 [1, 2, 3, 4, 5, 6, 7, 8, 9, 10, 11] zero_state).data_points
      (run_commits 30 [1, 2, 3, 4, 5, 6, 7, 8, 9, 10, 11] zero_state).activity_log 1
      = 1 := by
  have h := c5_daily_window 30 (by omega) [1, 2, 3, 4, 5, 6, 7, 8, 9, 10, 11]
    (by decide) 1 (by omega)
  simpa using h

end ActivityLogging
